import Mathlib

/-!
Verification development for the ONDC bulk-upload project
(`bulkUpload.py` and `productCategorization.py`).

The two modules are shallowly embedded: Python dictionaries become
association lists over a `PyVal` value type, the MongoDB collections
become explicit `List Doc` states threaded through each operation, and
fallible Python operations return `Except PyErr`.
-/

namespace ONDC

/-- Python/BSON values as they occur in this program: strings, integers,
floating-point numbers (modelled exactly as rationals; every numeric
literal the program handles is exactly representable), and lists/arrays. -/
inductive PyVal where
  | str (s : String)
  | int (n : ℤ)
  | float (q : ℚ)
  | list (xs : List PyVal)
deriving Repr

mutual

/-- Computable equality test on `PyVal` (written by hand because of the
nested `List`). -/
def PyVal.beq : PyVal → PyVal → Bool
  | .str a, .str b => a == b
  | .int a, .int b => a == b
  | .float a, .float b => a == b
  | .list as, .list bs => PyVal.beqL as bs
  | _, _ => false

/-- Elementwise equality test on lists of `PyVal`. -/
def PyVal.beqL : List PyVal → List PyVal → Bool
  | [], [] => true
  | a :: as, b :: bs => PyVal.beq a b && PyVal.beqL as bs
  | _, _ => false

end

mutual

theorem PyVal.beq_iff : (a b : PyVal) → (PyVal.beq a b = true ↔ a = b)
  | .str x, .str y => by simp [PyVal.beq]
  | .int x, .int y => by simp [PyVal.beq]
  | .float x, .float y => by simp [PyVal.beq]
  | .list as, .list bs => by
      have h := PyVal.beqL_iff as bs
      simp [PyVal.beq, h]
  | .str _, .int _ => by simp [PyVal.beq]
  | .str _, .float _ => by simp [PyVal.beq]
  | .str _, .list _ => by simp [PyVal.beq]
  | .int _, .str _ => by simp [PyVal.beq]
  | .int _, .float _ => by simp [PyVal.beq]
  | .int _, .list _ => by simp [PyVal.beq]
  | .float _, .str _ => by simp [PyVal.beq]
  | .float _, .int _ => by simp [PyVal.beq]
  | .float _, .list _ => by simp [PyVal.beq]
  | .list _, .str _ => by simp [PyVal.beq]
  | .list _, .int _ => by simp [PyVal.beq]
  | .list _, .float _ => by simp [PyVal.beq]

theorem PyVal.beqL_iff : (as bs : List PyVal) → (PyVal.beqL as bs = true ↔ as = bs)
  | [], [] => by simp [PyVal.beqL]
  | [], _ :: _ => by simp [PyVal.beqL]
  | _ :: _, [] => by simp [PyVal.beqL]
  | a :: as, b :: bs => by
      have h1 := PyVal.beq_iff a b
      have h2 := PyVal.beqL_iff as bs
      simp [PyVal.beqL, h1, h2]

end

instance : DecidableEq PyVal :=
  fun a b => decidable_of_iff (PyVal.beq a b = true) (PyVal.beq_iff a b)

/-- Decidable equality for `Except` results, used to evaluate the
embedding at concrete inputs. -/
def exceptDecEq {ε α : Type} [DecidableEq ε] [DecidableEq α] :
    (a b : Except ε α) → Decidable (a = b)
  | .ok a, .ok b =>
      if h : a = b then isTrue (by rw [h]) else isFalse (by simp [h])
  | .error e, .error f =>
      if h : e = f then isTrue (by rw [h]) else isFalse (by simp [h])
  | .ok _, .error _ => isFalse (fun h => nomatch h)
  | .error _, .ok _ => isFalse (fun h => nomatch h)

instance {ε α : Type} [DecidableEq ε] [DecidableEq α] :
    DecidableEq (Except ε α) := exceptDecEq

/-- A Python dict / BSON document: an association list from field names to
values (keys are unique in every document the program builds). -/
abbrev Doc := List (String × PyVal)

/-- The Python exceptions this program can raise, plus the storage layer's
write-rejection errors. -/
inductive PyErr where
  | valueError
  | typeError
  | attributeError
  | keyError
  | writeError
  | bulkWriteError
deriving DecidableEq, Repr

/-- Dict lookup: first binding of the key, if any. -/
def lookupF : Doc → String → Option PyVal
  | [], _ => none
  | (k', v) :: rest, k => if k' = k then some v else lookupF rest k

/-- Dict assignment `d[k] = v`: replace the first binding of `k`, or append
a new binding when the key is absent. -/
def setField : Doc → String → PyVal → Doc
  | [], k, v => [(k, v)]
  | (k', v') :: rest, k, v =>
      if k' = k then (k, v) :: rest else (k', v') :: setField rest k v

/-- Characters Python's `str.strip()` removes (whitespace). -/
def pyIsSpace (c : Char) : Bool :=
  c = ' ' || c = '\t' || c = '\n' || c = '\r' || c = '\x0b' || c = '\x0c'

/-- Python `str.strip()` on a character list: drop whitespace at both ends. -/
def stripChars (cs : List Char) : List Char :=
  ((cs.dropWhile pyIsSpace).reverse.dropWhile pyIsSpace).reverse

/-- Python `str.strip()`. -/
def stripStr (s : String) : String :=
  String.mk (stripChars s.data)

/-- Python `s.split(',')` on a character list: split at every comma,
keeping empty pieces (exactly CPython's single-separator `split`). -/
def splitComma : List Char → List Char → List String
  | [], acc => [String.mk acc.reverse]
  | c :: cs, acc =>
      if c = ',' then String.mk acc.reverse :: splitComma cs []
      else splitComma cs (c :: acc)

/-- Python `s.split(',')`. -/
def splitCommaStr (s : String) : List String :=
  splitComma s.data []

/-- Numeric value of a digit list (most significant first). -/
def natOfDigits (cs : List Char) : ℕ :=
  cs.foldl (fun a c => 10 * a + (c.toNat - 48)) 0

/-- Parse an unsigned decimal literal `digits [. digits]` with at least one
digit, as Python's `float()` accepts (the exponent / `inf` / `nan` forms
Python also accepts never arise in this program's data and are omitted). -/
def parseUnsignedDec (cs : List Char) : Option ℚ :=
  let ip := cs.takeWhile Char.isDigit
  let rest := cs.dropWhile Char.isDigit
  match rest with
  | [] => if ip.isEmpty then none else some (natOfDigits ip)
  | '.' :: frac =>
      if ip.isEmpty && frac.isEmpty then none
      else if frac.all Char.isDigit then
        some ((natOfDigits ip : ℚ) + (natOfDigits frac : ℚ) / (10 : ℚ) ^ frac.length)
      else none
  | _ => none

/-- Parse a signed decimal literal after stripping whitespace, as Python's
`float(str)` does. -/
def parseDec (s : String) : Option ℚ :=
  match stripChars s.data with
  | '-' :: cs => (parseUnsignedDec cs).map (fun q => -q)
  | '+' :: cs => parseUnsignedDec cs
  | cs => parseUnsignedDec cs

/-- Parse a signed integer literal after stripping whitespace, as Python's
`int(str)` does (`int("10.5")` is a `ValueError`). -/
def parseIntStr (s : String) : Option ℤ :=
  match stripChars s.data with
  | '-' :: cs =>
      if cs.isEmpty || !cs.all Char.isDigit then none
      else some (-(natOfDigits cs : ℤ))
  | '+' :: cs =>
      if cs.isEmpty || !cs.all Char.isDigit then none
      else some (natOfDigits cs : ℤ)
  | cs =>
      if cs.isEmpty || !cs.all Char.isDigit then none
      else some (natOfDigits cs : ℤ)

/-- Truncation toward zero, as Python's `int(float)`. -/
def ratTrunc (q : ℚ) : ℤ :=
  q.num.tdiv q.den

/-- Python `float(x)`: numbers pass through, numeric strings parse,
anything else raises. -/
def pyFloat : PyVal → Except PyErr ℚ
  | .str s =>
      match parseDec s with
      | some q => .ok q
      | none => .error .valueError
  | .int n => .ok (n : ℚ)
  | .float q => .ok q
  | .list _ => .error .typeError

/-- Python `int(x)`: integers pass through, floats truncate toward zero,
integer-literal strings parse, anything else raises. -/
def pyInt : PyVal → Except PyErr ℤ
  | .str s =>
      match parseIntStr s with
      | some n => .ok n
      | none => .error .valueError
  | .int n => .ok n
  | .float q => .ok (ratTrunc q)
  | .list _ => .error .typeError

/-- Python `x.split(',')` followed by stripping each piece, as in
`[cat.strip() for cat in product['categories'].split(',')]`; raises
`AttributeError` when the value is not a string. -/
def pySplitStrip : PyVal → Except PyErr (List String)
  | .str s => .ok ((splitCommaStr s).map stripStr)
  | _ => .error .attributeError

/-- Dict subscript `d[k]`: raises `KeyError` when the key is absent. -/
def getItem (d : Doc) (k : String) : Except PyErr PyVal :=
  match lookupF d k with
  | some v => .ok v
  | none => .error .keyError

/-- A fallible loop over a list, as a Python `for` over fallible bodies: the
first raised exception aborts the whole traversal. -/
def mapExcept (f : α → Except PyErr β) : List α → Except PyErr (List β)
  | [] => .ok []
  | x :: xs => do
      let y ← f x
      let ys ← mapExcept f xs
      pure (y :: ys)

/-- MongoDB equality match of a query value against a document field, as
used by `find_one` / `find` / `$in` elements: the field must exist and
either equal the value or be an array containing it. -/
def fieldMatches (d : Doc) (k : String) (v : PyVal) : Bool :=
  match lookupF d k with
  | some w =>
      w = v ||
        (match w with
         | .list xs => xs.contains v
         | _ => false)
  | none => false

namespace BulkUpload

/-- A pandas DataFrame as produced by `pd.read_csv`: the header column
names and one list of (already type-inferred) cell values per data row. -/
structure DataFrame where
  columns : List String
  rows : List (List PyVal)
deriving Repr

/-- Source `validate_csv`: every one of the five required columns is
present in the frame's columns. -/
def validate_csv (df : DataFrame) : Bool :=
  ["product_name", "description", "price", "quantity", "categories"].all
    (fun col => df.columns.contains col)

/-- The dictionaries `df.to_dict('records')` produces: one association
list per row, pairing column names with that row's cells. -/
def recordsOf (df : DataFrame) : List Doc :=
  df.rows.map (fun r => df.columns.zip r)

/-- The per-product normalization loop body of `process_csv`:
`product['price'] = float(product['price'])`, then
`product['quantity'] = int(product['quantity'])`, then
`product['categories'] = [cat.strip() for cat in product['categories'].split(',')]`. -/
def normalizeRecord (rec : Doc) : Except PyErr Doc := do
  let p ← pyFloat (← getItem rec "price")
  let rec1 := setField rec "price" (.float p)
  let n ← pyInt (← getItem rec1 "quantity")
  let rec2 := setField rec1 "quantity" (.int n)
  let cs ← pySplitStrip (← getItem rec2 "categories")
  pure (setField rec2 "categories" (.list (cs.map .str)))

/-- Source `process_csv` after `pd.read_csv`: `None` when validation
fails, otherwise the normalized records; a coercion failure raises. -/
def process_csv (df : DataFrame) : Except PyErr (Option (List Doc)) :=
  if validate_csv df then do
    let l ← mapExcept normalizeRecord (recordsOf df)
    pure (some l)
  else pure none

/-- Check of one value against a declared bsonType `"int"`: a 32-bit
integer (Python ints that fit are encoded as int32 by the driver). -/
def bsonIsInt32 : PyVal → Bool
  | .int n => decide (-(2 ^ 31) ≤ n ∧ n < 2 ^ 31)
  | _ => false

/-- Check of one value against bsonType `"number"` (int or double here). -/
def bsonIsNumber : PyVal → Bool
  | .int _ => true
  | .float _ => true
  | _ => false

/-- Numeric value of a BSON number, for the `minimum` bound. -/
def bsonNumVal : PyVal → ℚ
  | .int n => (n : ℚ)
  | .float q => q
  | _ => 0

/-- The `product_schema` validator of the products collection: the five
fields are required; `product_name` and `description` are strings,
`price` a non-negative number, `quantity` a non-negative int,
`categories` an array of strings. Extra fields are allowed. -/
def productValid (d : Doc) : Bool :=
  (match lookupF d "product_name" with
   | some (.str _) => true
   | _ => false) &&
  (match lookupF d "description" with
   | some (.str _) => true
   | _ => false) &&
  (match lookupF d "price" with
   | some v => bsonIsNumber v && decide (0 ≤ bsonNumVal v)
   | none => false) &&
  (match lookupF d "quantity" with
   | some v => bsonIsInt32 v && decide (0 ≤ bsonNumVal v)
   | none => false) &&
  (match lookupF d "categories" with
   | some (.list xs) => xs.all (fun x => match x with | .str _ => true | _ => false)
   | _ => false)

/-- The `categories_schema` validator: `name` is required and a string. -/
def categoryValid (d : Doc) : Bool :=
  match lookupF d "name" with
  | some (.str _) => true
  | _ => false

/-- MongoDB `insert_many` with the collection validator, under the default
`ordered=True` semantics the driver documents: documents are inserted
serially, the first rejected document aborts the operation with a
`BulkWriteError`, and documents already inserted are NOT rolled back.
Returns the new collection state and either the inserted documents or the
error. -/
def insert_many (valid : Doc → Bool) : List Doc → List Doc → List Doc × Except PyErr (List Doc)
  | coll, [] => (coll, .ok [])
  | coll, d :: ds =>
      if valid d then
        match insert_many valid (coll ++ [d]) ds with
        | (coll', .ok inserted) => (coll', .ok (d :: inserted))
        | (coll', .error e) => (coll', .error e)
      else (coll, .error .bulkWriteError)

/-- Source `save_products`: `insert_many` on the products collection, then
`len(result.inserted_ids)`. -/
def save_products (coll : List Doc) (products : List Doc) : List Doc × Except PyErr ℕ :=
  match insert_many productValid coll products with
  | (coll', .ok inserted) => (coll', .ok inserted.length)
  | (coll', .error e) => (coll', .error e)

/-- Source `get_all_categories` of `bulkUpload.py`: the `name` value of
every document of the categories collection, in collection order. -/
def get_all_categories (cats : List Doc) : List (Option PyVal) :=
  cats.map (fun d => lookupF d "name")

/-- Source `add_category`: `find_one({"name": category_name})`, and an
`insert_one({"name": category_name})` when nothing matched; the insert is
checked by the categories validator (it rejects non-string names).
Returns the new collection state and the error, if any. -/
def add_category (cats : List Doc) (v : PyVal) : List Doc × Option PyErr :=
  if cats.any (fun d => fieldMatches d "name" v) then (cats, none)
  else if categoryValid [("name", v)] then (cats ++ [[("name", v)]], none)
  else (cats, some .writeError)

/-- ASCII lowering, as the `i` option of a `$regex` match folds case. -/
def lowerChar (c : Char) : Char :=
  if 'A' ≤ c ∧ c ≤ 'Z' then Char.ofNat (c.toNat + 32) else c

/-- Test that `needle` occurs at the head of `hay`. -/
def charsLead : List Char → List Char → Bool
  | [], _ => true
  | _ :: _, [] => false
  | a :: as, b :: bs => a = b && charsLead as bs

/-- Test that `needle` occurs somewhere inside `hay`. -/
def charsSub (hay needle : List Char) : Bool :=
  match hay with
  | [] => needle.isEmpty
  | _ :: t => charsLead needle hay || charsSub t needle

/-- A case-insensitive `$regex` condition for a plain-text pattern: the
field exists, is a string, and contains the pattern up to ASCII case
(`$regex` never matches non-string fields). -/
def regexCI (d : Doc) (k : String) (pat : String) : Bool :=
  match lookupF d k with
  | some (.str s) => charsSub (s.data.map lowerChar) (pat.data.map lowerChar)
  | _ => false

/-- The match predicate of the `$or` query built by `search_products`:
case-insensitive regex on `product_name` or on `description`, or
`{"category": {"$in": [query]}}`. -/
def searchMatch (q : String) (d : Doc) : Bool :=
  regexCI d "product_name" q || regexCI d "description" q ||
    fieldMatches d "category" (.str q)

/-- Source `search_products`: `find` with the `$or` query, in collection
order. -/
def search_products (coll : List Doc) (q : String) : List Doc :=
  coll.filter (searchMatch q)

/-- The file loop of `main` (lines 126-140): each uploaded file is run
through `process_csv`; a truthy result extends `all_products`, a falsy one
(`None`, or an empty record list) appends the file name to
`invalid_files`; an exception raised by `process_csv` aborts the loop. -/
def processFiles : List (String × DataFrame) → Except PyErr (List Doc × List String)
  | [] => .ok ([], [])
  | (name, df) :: rest => do
      let r ← process_csv df
      let (ps, invs) ← processFiles rest
      match r with
      | some prods =>
          if prods.isEmpty then pure (ps, name :: invs)
          else pure (prods ++ ps, invs)
      | none => pure (ps, name :: invs)

/-- Python iteration `for category in product['categories']`: a list
yields its elements, a string yields its one-character substrings, other
values raise. -/
def iterCategories (d : Doc) : Except PyErr (List PyVal) :=
  match lookupF d "categories" with
  | some (.list xs) => .ok xs
  | some (.str s) => .ok (s.data.map (fun c => .str (String.mk [c])))
  | some _ => .error .typeError
  | none => .error .keyError

/-- The inner category-registration loop of the upload button: one
`add_category` per category value, stopping at the first error and keeping
the category-store state reached so far. -/
def addAllCats : List Doc → List PyVal → List Doc × Option PyErr
  | cats, [] => (cats, none)
  | cats, v :: vs =>
      match add_category cats v with
      | (cats', none) => addAllCats cats' vs
      | (cats', some e) => (cats', some e)

/-- The outer registration loop of the upload button (lines 146-148):
`for product in all_products: for category in product['categories']:
add_category(category)`. -/
def registerCats : List Doc → List Doc → List Doc × Option PyErr
  | cats, [] => (cats, none)
  | cats, p :: ps =>
      match iterCategories p with
      | .error e => (cats, some e)
      | .ok vs =>
          match addAllCats cats vs with
          | (cats', none) => registerCats cats' ps
          | (cats', some e) => (cats', some e)

/-- The upload-button handler (lines 144-152): register every category of
every product, then hand the whole batch to `save_products`. Returns the
final category store, the final product store, and the reported outcome. -/
def upload_all (cats prods all_products : List Doc) :
    List Doc × List Doc × Except PyErr ℕ :=
  match registerCats cats all_products with
  | (cats', some e) => (cats', prods, .error e)
  | (cats', none) =>
      match save_products prods all_products with
      | (prods', r) => (cats', prods', r)

end BulkUpload

namespace Categorize

/-- Lexicographic order on character lists, for sorting string values. -/
def charsLe : List Char → List Char → Bool
  | [], _ => true
  | _ :: _, [] => false
  | a :: as, b :: bs =>
      if a = b then charsLe as bs else decide (a < b)

/-- A total comparison on `PyVal` used to model Python's `sorted`: the
values this module sorts are all strings, where this is exactly Python's
code-point order; unlike constructors (where Python would raise a
`TypeError`) are ranked by constructor. -/
def pyLe (a b : PyVal) : Bool :=
  match a, b with
  | .str x, .str y => charsLe x.data y.data
  | .str _, _ => true
  | .int _, .str _ => false
  | .int x, .int y => decide (x ≤ y)
  | .int _, _ => true
  | .float _, .str _ => false
  | .float _, .int _ => false
  | .float x, .float y => decide (x ≤ y)
  | .float _, .list _ => true
  | .list _, .str _ => false
  | .list _, .int _ => false
  | .list _, .float _ => false
  | .list _, .list _ => true

/-- MongoDB `distinct(field)`: the distinct values of the field over the
collection, with array values unwound into their elements. -/
def distinctField (coll : List Doc) (k : String) : List PyVal :=
  (coll.foldr
    (fun d acc =>
      match lookupF d k with
      | some (.list xs) => xs ++ acc
      | some v => v :: acc
      | none => acc)
    []).dedup

/-- Source `get_all_categories` of `productCategorization.py`:
`sorted(collection.distinct('category'))`. -/
def get_all_categories (coll : List Doc) : List PyVal :=
  (distinctField coll "category").insertionSort (fun a b => pyLe a b = true)

/-- Source `get_products_by_category`: `find({'category': category})` in
collection order. -/
def get_products_by_category (coll : List Doc) (category : PyVal) : List Doc :=
  coll.filter (fun d => fieldMatches d "category" category)

/-- MongoDB `update_one({'_id': pid}, {'$set': {k: v}})`: the first
matching document gets the field set; `modified_count` is positive exactly
when that document actually changed. Returns the new collection and
`modified_count > 0`. -/
def update_one_set : List Doc → PyVal → String → PyVal → List Doc × Bool
  | [], _, _, _ => ([], false)
  | d :: ds, pid, k, v =>
      if fieldMatches d "_id" pid then
        (setField d k v :: ds, decide (setField d k v ≠ d))
      else
        match update_one_set ds pid k v with
        | (ds', b) => (d :: ds', b)

/-- Source `update_product_category`: `update_one` on `_id` with
`$set: {category: new_category}`, returning `modified_count > 0`. -/
def update_product_category (coll : List Doc) (pid new_category : PyVal) :
    List Doc × Bool :=
  update_one_set coll pid "category" new_category

/-- Source `add_new_category`: reads the distinct categories and returns
whether the name is absent; it performs no write at all, so the embedding
returns both collection states unchanged. -/
def add_new_category (prods cats : List Doc) (new_category : String) :
    List Doc × List Doc × Bool :=
  (prods, cats,
    if (get_all_categories prods).contains (.str new_category) then false else true)

end Categorize

/-! Simp lemmas for the `Except` monad operations the embedding uses. -/

@[simp]
theorem exc_bind_ok (a : α) (f : α → Except PyErr β) :
    (Except.ok a >>= f) = f a := rfl

@[simp]
theorem exc_bind_error (e : PyErr) (f : α → Except PyErr β) :
    ((Except.error e : Except PyErr α) >>= f) = Except.error e := rfl

@[simp]
theorem exc_map_ok (g : α → β) (a : α) :
    (g <$> (Except.ok a : Except PyErr α)) = Except.ok (g a) := rfl

@[simp]
theorem exc_map_error (g : α → β) (e : PyErr) :
    (g <$> (Except.error e : Except PyErr α)) = Except.error e := rfl

@[simp]
theorem exc_pure (a : α) : (pure a : Except PyErr α) = Except.ok a := rfl

/-! Lemmas about dictionaries. -/

theorem lookupF_setField_same (d : Doc) (k : String) (v : PyVal) :
    lookupF (setField d k v) k = some v := by
  induction d with
  | nil => simp [setField, lookupF]
  | cons kv rest ih =>
      obtain ⟨k', v'⟩ := kv
      by_cases h : k' = k
      · simp [setField, lookupF, h]
      · simp [setField, lookupF, h, ih]

theorem lookupF_setField_other (d : Doc) (k k' : String) (v : PyVal)
    (h : k' ≠ k) : lookupF (setField d k v) k' = lookupF d k' := by
  have h' : ¬(k = k') := Ne.symm h
  induction d with
  | nil => simp [setField, lookupF, h']
  | cons kv rest ih =>
      obtain ⟨k₀, v₀⟩ := kv
      by_cases h0 : k₀ = k
      · subst h0
        simp [setField, lookupF, h']
      · simp [setField, lookupF, h0, ih]

theorem setField_eq_self_iff (d : Doc) (k : String) (v : PyVal) :
    setField d k v = d ↔ lookupF d k = some v := by
  induction d with
  | nil => simp [setField, lookupF]
  | cons kv rest ih =>
      obtain ⟨k₀, v₀⟩ := kv
      by_cases h0 : k₀ = k
      · subst h0
        simp [setField, lookupF, eq_comm]
      · simp [setField, lookupF, h0, ih]

theorem lookupF_zip_not_mem (cols : List String) (r : List PyVal) (k : String)
    (h : k ∉ cols) : lookupF (cols.zip r) k = none := by
  induction cols generalizing r with
  | nil => simp [lookupF, List.zip]
  | cons c cs ih =>
      cases r with
      | nil => simp [lookupF]
      | cons x xs =>
          have hc : c ≠ k := fun hh => h (hh ▸ List.mem_cons_self c cs)
          have hcs : k ∉ cs := fun hh => h (List.mem_cons_of_mem c hh)
          rw [List.zip_cons_cons]
          simp [lookupF, hc, ih xs hcs]

/-! Lemmas about the fallible loop `mapExcept`. -/

theorem mapExcept_ok_of_forall (f : α → Except PyErr β) (xs : List α)
    (h : ∀ x ∈ xs, ∃ y, f x = .ok y) :
    ∃ l, mapExcept f xs = .ok l ∧ List.Forall₂ (fun x y => f x = .ok y) xs l := by
  induction xs with
  | nil => exact ⟨[], rfl, List.Forall₂.nil⟩
  | cons x xs ih =>
      obtain ⟨y, hy⟩ := h x (List.mem_cons_self x xs)
      obtain ⟨l, hl, hall⟩ := ih (fun z hz => h z (List.mem_cons_of_mem x hz))
      exact ⟨y :: l, by simp [mapExcept, hy, hl], List.Forall₂.cons hy hall⟩

theorem mapExcept_mem_ok (f : α → Except PyErr β) (xs : List α) (l : List β)
    (h : mapExcept f xs = .ok l) : ∀ y ∈ l, ∃ x ∈ xs, f x = .ok y := by
  induction xs generalizing l with
  | nil =>
      simp [mapExcept] at h
      subst h
      intro y hy; cases hy
  | cons x xs ih =>
      intro y hy
      cases hx : f x with
      | error e => simp [mapExcept, hx] at h
      | ok z =>
          cases hxs : mapExcept f xs with
          | error e => simp [mapExcept, hx, hxs] at h
          | ok l' =>
              simp [mapExcept, hx, hxs] at h
              rcases List.mem_cons.mp (h ▸ hy) with h1 | h1
              · exact ⟨x, List.mem_cons_self x xs, h1 ▸ hx⟩
              · obtain ⟨x', hx', hfx'⟩ := ih l' hxs y h1
                exact ⟨x', List.mem_cons_of_mem x hx', hfx'⟩

theorem mapExcept_error_of_mem (f : α → Except PyErr β) (xs : List α)
    (x : α) (e : PyErr) (hx : x ∈ xs) (hf : f x = .error e) :
    ∃ e', mapExcept f xs = .error e' := by
  induction xs with
  | nil => cases hx
  | cons y ys ih =>
      rcases List.mem_cons.mp hx with h1 | h1
      · subst h1
        exact ⟨e, by simp [mapExcept, hf]⟩
      · cases hy : f y with
        | error e0 => exact ⟨e0, by simp [mapExcept, hy]⟩
        | ok z =>
            obtain ⟨e', he'⟩ := ih h1
            exact ⟨e', by simp [mapExcept, hy, he']⟩

theorem getItem_eq_ok_iff (d : Doc) (k : String) (v : PyVal) :
    getItem d k = .ok v ↔ lookupF d k = some v := by
  cases h : lookupF d k <;> simp [getItem, h]

namespace BulkUpload

/-! Lemmas about `normalizeRecord` and `process_csv`. -/

/-- The record a successful normalization produces, written out. -/
def normalizedDoc (rec : Doc) (q : ℚ) (n : ℤ) (s : String) : Doc :=
  setField (setField (setField rec "price" (.float q)) "quantity" (.int n))
    "categories" (.list (((splitCommaStr s).map stripStr).map .str))

theorem normalizeRecord_ok (rec : Doc) (vp : PyVal) (q : ℚ) (vq : PyVal)
    (n : ℤ) (s : String)
    (hp : lookupF rec "price" = some vp) (hq : pyFloat vp = .ok q)
    (hn : lookupF rec "quantity" = some vq) (hi : pyInt vq = .ok n)
    (hc : lookupF rec "categories" = some (.str s)) :
    normalizeRecord rec = .ok (normalizedDoc rec q n s) := by
  have h1 : lookupF (setField rec "price" (.float q)) "quantity" = some vq := by
    rw [lookupF_setField_other _ _ _ _ (by decide)]; exact hn
  have h2 : lookupF (setField (setField rec "price" (.float q)) "quantity" (.int n))
      "categories" = some (.str s) := by
    rw [lookupF_setField_other _ _ _ _ (by decide),
      lookupF_setField_other _ _ _ _ (by decide)]
    exact hc
  simp [normalizeRecord, getItem, hp, hq, h1, hi, h2, pySplitStrip, normalizedDoc]

theorem normalizeRecord_error_price (rec : Doc) (vp : PyVal) (e : PyErr)
    (hp : lookupF rec "price" = some vp) (hq : pyFloat vp = .error e) :
    normalizeRecord rec = .error e := by
  simp [normalizeRecord, getItem, hp, hq]

/-- A successful normalization is exactly the written-out record. -/
theorem normalizeRecord_shape (rec out : Doc)
    (h : normalizeRecord rec = .ok out) :
    ∃ q n s, lookupF rec "categories" = some (.str s) ∧
      out = normalizedDoc rec q n s := by
  cases hgp : getItem rec "price" with
  | error e => simp [normalizeRecord, hgp] at h
  | ok vp =>
      cases hq : pyFloat vp with
      | error e => simp [normalizeRecord, hgp, hq] at h
      | ok q =>
          cases hgn : getItem (setField rec "price" (.float q)) "quantity" with
          | error e => simp [normalizeRecord, hgp, hq, hgn] at h
          | ok vq =>
              cases hi : pyInt vq with
              | error e => simp [normalizeRecord, hgp, hq, hgn, hi] at h
              | ok n =>
                  cases hgc : getItem (setField (setField rec "price" (.float q))
                      "quantity" (.int n)) "categories" with
                  | error e => simp [normalizeRecord, hgp, hq, hgn, hi, hgc] at h
                  | ok vc =>
                      cases hsp : pySplitStrip vc with
                      | error e =>
                          simp [normalizeRecord, hgp, hq, hgn, hi, hgc, hsp] at h
                      | ok cs =>
                          cases vc with
                          | str s =>
                              have hcs : cs = (splitCommaStr s).map stripStr := by
                                simpa [pySplitStrip] using hsp.symm
                              refine ⟨q, n, s, ?_, ?_⟩
                              · have h3 := (getItem_eq_ok_iff _ _ _).mp hgc
                                rw [lookupF_setField_other _ _ _ _ (by decide),
                                  lookupF_setField_other _ _ _ _ (by decide)] at h3
                                exact h3
                              · simp [normalizeRecord, hgp, hq, hgn, hi, hgc, hsp] at h
                                simp [normalizedDoc, ← h, hcs]
                          | int n' => simp [pySplitStrip] at hsp
                          | float q' => simp [pySplitStrip] at hsp
                          | list xs => simp [pySplitStrip] at hsp

/-- Fields other than the three rewritten ones keep their values. -/
theorem normalizeRecord_lookup_other (rec out : Doc) (k : String)
    (hk1 : k ≠ "price") (hk2 : k ≠ "quantity") (hk3 : k ≠ "categories")
    (h : normalizeRecord rec = .ok out) : lookupF out k = lookupF rec k := by
  obtain ⟨q, n, s, _, hout⟩ := normalizeRecord_shape rec out h
  rw [hout]
  unfold normalizedDoc
  rw [lookupF_setField_other _ _ _ _ hk3, lookupF_setField_other _ _ _ _ hk2,
    lookupF_setField_other _ _ _ _ hk1]

/-- The success hypothesis of one row: its price and quantity coerce and
its categories cell is a string. -/
def rowCoercible (rec : Doc) : Prop :=
  (∃ vp q, lookupF rec "price" = some vp ∧ pyFloat vp = .ok q) ∧
  (∃ vq n, lookupF rec "quantity" = some vq ∧ pyInt vq = .ok n) ∧
  (∃ s, lookupF rec "categories" = some (.str s))

/-- The relation claim C1 states between an input row record and its
normalized output record. -/
def rowNormalized (rec out : Doc) : Prop :=
  (∃ vp q, lookupF rec "price" = some vp ∧ pyFloat vp = .ok q ∧
    lookupF out "price" = some (.float q)) ∧
  (∃ vq n, lookupF rec "quantity" = some vq ∧ pyInt vq = .ok n ∧
    lookupF out "quantity" = some (.int n)) ∧
  (∃ s, lookupF rec "categories" = some (.str s) ∧
    lookupF out "categories" =
      some (.list (((splitCommaStr s).map stripStr).map .str)))

theorem normalizeRecord_normalizes (rec out : Doc) (hc : rowCoercible rec)
    (h : normalizeRecord rec = .ok out) : rowNormalized rec out := by
  obtain ⟨⟨vp, q, hp, hq⟩, ⟨vq, n, hn, hi⟩, ⟨s, hs⟩⟩ := hc
  have hok := normalizeRecord_ok rec vp q vq n s hp hq hn hi hs
  rw [h] at hok
  have hout : out = normalizedDoc rec q n s := by simpa using hok
  subst hout
  refine ⟨⟨vp, q, hp, hq, ?_⟩, ⟨vq, n, hn, hi, ?_⟩, ⟨s, hs, ?_⟩⟩
  · unfold normalizedDoc
    rw [lookupF_setField_other _ _ _ _ (by decide),
      lookupF_setField_other _ _ _ _ (by decide), lookupF_setField_same]
  · unfold normalizedDoc
    rw [lookupF_setField_other _ _ _ _ (by decide), lookupF_setField_same]
  · unfold normalizedDoc
    rw [lookupF_setField_same]

theorem forall2_normalized (recs l : List Doc)
    (hfa : List.Forall₂ (fun x y => normalizeRecord x = .ok y) recs l)
    (hrows : ∀ rec ∈ recs, rowCoercible rec) :
    List.Forall₂ rowNormalized recs l := by
  induction hfa with
  | nil => exact .nil
  | @cons a b as bs h1 hrest ih =>
      exact .cons
        (normalizeRecord_normalizes a b (hrows a (List.mem_cons_self a as)) h1)
        (ih (fun r hr => hrows r (List.mem_cons_of_mem a hr)))

/-- The full content of claim C1: a frame with the five columns whose rows
all coerce normalizes to one record per row, related row-by-row by
`rowNormalized`. -/
theorem process_csv_ok_spec (df : DataFrame)
    (hv : validate_csv df = true)
    (hrows : ∀ rec ∈ recordsOf df, rowCoercible rec) :
    ∃ l, process_csv df = .ok (some l) ∧ l.length = df.rows.length ∧
      List.Forall₂ rowNormalized (recordsOf df) l := by
  have hall : ∀ rec ∈ recordsOf df, ∃ out, normalizeRecord rec = .ok out := by
    intro rec hrec
    obtain ⟨⟨vp, q, hp, hq⟩, ⟨vq, n, hn, hi⟩, ⟨s, hs⟩⟩ := hrows rec hrec
    exact ⟨_, normalizeRecord_ok rec vp q vq n s hp hq hn hi hs⟩
  obtain ⟨l, hl, hfa⟩ := mapExcept_ok_of_forall _ _ hall
  refine ⟨l, ?_, ?_, forall2_normalized _ _ hfa hrows⟩
  · simp [process_csv, hv, hl]
  · have h1 := hfa.length_eq
    simpa [recordsOf] using h1.symm

/-- The record lists the file loop aggregates: for each file whose
`process_csv` result is a (truthy or falsy) record list, that list. -/
def goodRecordsOf (bs : List (String × DataFrame)) : List Doc :=
  (bs.filterMap (fun p =>
    match process_csv p.2 with
    | .ok (some l) => some l
    | _ => none)).flatten

/-- The names the file loop records as invalid: the files whose
`process_csv` returned `None`. -/
def invalidNamesOf (bs : List (String × DataFrame)) : List String :=
  bs.filterMap (fun p =>
    match process_csv p.2 with
    | .ok none => some p.1
    | _ => none)

/-- A file whose ingestion succeeds with at least one record. -/
def fileOk (df : DataFrame) : Prop :=
  validate_csv df = true ∧ df.rows ≠ [] ∧ ∀ rec ∈ recordsOf df, rowCoercible rec

theorem processFiles_spec (bs : List (String × DataFrame))
    (h : ∀ p ∈ bs, fileOk p.2 ∨ validate_csv p.2 = false) :
    processFiles bs = .ok (goodRecordsOf bs, invalidNamesOf bs) := by
  induction bs with
  | nil => simp [processFiles, goodRecordsOf, invalidNamesOf]
  | cons p rest ih =>
      obtain ⟨name, df⟩ := p
      have hIH := ih (fun q hq => h q (List.mem_cons_of_mem _ hq))
      rcases h _ (List.mem_cons_self _ rest) with hok | hbad
      · obtain ⟨hv, hne, hrows⟩ := hok
        obtain ⟨l, hl, hlen, _⟩ := process_csv_ok_spec df hv hrows
        have hlne : l ≠ [] := by
          intro hnil
          rw [hnil] at hlen
          exact hne (List.eq_nil_of_length_eq_zero hlen.symm)
        have hlE : l.isEmpty = false := by
          cases l with
          | nil => exact absurd rfl hlne
          | cons a as => rfl
        simp [processFiles, hl, hIH, goodRecordsOf, invalidNamesOf,
          List.filterMap_cons, hlE, hlne]
      · have hl : process_csv df = .ok none := by simp [process_csv, hbad]
        simp [processFiles, hl, hIH, goodRecordsOf, invalidNamesOf,
          List.filterMap_cons]

theorem processFiles_error_of_mem (bs : List (String × DataFrame))
    (name : String) (df : DataFrame) (e : PyErr)
    (hmem : (name, df) ∈ bs) (hdf : process_csv df = .error e) :
    ∃ e', processFiles bs = .error e' := by
  induction bs with
  | nil => cases hmem
  | cons p rest ih =>
      obtain ⟨pn, pdf⟩ := p
      rcases List.mem_cons.mp hmem with h1 | h1
      · obtain ⟨h1a, h1b⟩ := Prod.mk.injEq .. ▸ h1
        subst h1a; subst h1b
        exact ⟨e, by simp [processFiles, hdf]⟩
      · cases hp : process_csv pdf with
        | error e0 => exact ⟨e0, by simp [processFiles, hp]⟩
        | ok r =>
            obtain ⟨e', he'⟩ := ih h1
            exact ⟨e', by simp [processFiles, hp, he']⟩

/-! Concrete frames used as witnesses. -/

/-- The Widget example file of the spec. -/
def wDF : DataFrame :=
  { columns := ["product_name", "description", "price", "quantity", "categories"],
    rows := [[.str "Widget", .str "desc", .int 10, .int 5, .str "a, b"]] }

/-- A file missing the price, quantity and categories columns. -/
def badColsDF : DataFrame :=
  { columns := ["product_name", "description"],
    rows := [[.str "X", .str "d"]] }

/-- A file with all five columns but a non-numeric price cell. -/
def badPriceDF : DataFrame :=
  { columns := ["product_name", "description", "price", "quantity", "categories"],
    rows := [[.str "Gadget", .str "g", .str "abc", .int 2, .str "c"]] }

theorem wDF_fileOk : fileOk wDF := by
  refine ⟨rfl, by simp [wDF], ?_⟩
  intro rec hrec
  simp [recordsOf, wDF] at hrec
  subst hrec
  exact ⟨⟨.int 10, ((10 : ℤ) : ℚ), rfl, rfl⟩, ⟨.int 5, (5 : ℤ), rfl, rfl⟩,
    ⟨"a, b", rfl⟩⟩

/-- C1: for every CSV file that parses and contains all five required
columns (and whose cells coerce, so that the claimed coercions exist),
`process_csv` returns one record per data row in which `price` is the
float coercion of the row's price, `quantity` the int coercion of the
row's quantity, and `categories` the row's categories string split on
commas with each piece stripped, in order, empty entries preserved. -/
theorem claim_C1 (df : DataFrame) (hv : validate_csv df = true)
    (hrows : ∀ rec ∈ recordsOf df, rowCoercible rec) :
    ∃ l, process_csv df = .ok (some l) ∧ l.length = df.rows.length ∧
      List.Forall₂ rowNormalized (recordsOf df) l :=
  process_csv_ok_spec df hv hrows

/-- Witness for C1: the Widget row of the spec yields `price=10.0`,
`quantity=5`, `categories=["a","b"]`. -/
theorem claim_C1_witness :
    validate_csv wDF = true ∧
    (∃ l, process_csv wDF = .ok (some l) ∧ l.length = wDF.rows.length ∧
      List.Forall₂ rowNormalized (recordsOf wDF) l) ∧
    process_csv wDF = .ok (some [[("product_name", .str "Widget"),
      ("description", .str "desc"), ("price", .float 10), ("quantity", .int 5),
      ("categories", .list [.str "a", .str "b"])]]) :=
  ⟨rfl, claim_C1 wDF rfl wDF_fileOk.2.2, by decide⟩

/-- C2: a file missing a required column yields `None` without raising,
and a batch of such files among fully valid files still aggregates every
valid file's full record list, recording the invalid files by name. -/
theorem claim_C2 :
    (∀ df : DataFrame, validate_csv df = false → process_csv df = .ok none) ∧
    (∀ df : DataFrame, fileOk df →
      ∃ l, process_csv df = .ok (some l) ∧
        List.Forall₂ rowNormalized (recordsOf df) l) ∧
    (∀ bs : List (String × DataFrame),
      (∀ p ∈ bs, fileOk p.2 ∨ validate_csv p.2 = false) →
      processFiles bs = .ok (goodRecordsOf bs, invalidNamesOf bs)) := by
  refine ⟨fun df h => by simp [process_csv, h], fun df hok => ?_, processFiles_spec⟩
  obtain ⟨hv, _, hrows⟩ := hok
  obtain ⟨l, hl, _, hfa⟩ := process_csv_ok_spec df hv hrows
  exact ⟨l, hl, hfa⟩

/-- Witness for C2: a batch of the Widget file and a file missing columns
produces the Widget records and records only `b.csv` as invalid. -/
theorem claim_C2_witness :
    validate_csv badColsDF = false ∧
    processFiles [("a.csv", wDF), ("b.csv", badColsDF)] =
      .ok (goodRecordsOf [("a.csv", wDF), ("b.csv", badColsDF)],
        invalidNamesOf [("a.csv", wDF), ("b.csv", badColsDF)]) ∧
    invalidNamesOf [("a.csv", wDF), ("b.csv", badColsDF)] = ["b.csv"] ∧
    (goodRecordsOf [("a.csv", wDF), ("b.csv", badColsDF)]).length = 1 := by
  refine ⟨rfl, ?_, by decide, by decide⟩
  apply claim_C2.2.2
  intro p hp
  rcases List.mem_cons.mp hp with h1 | h1
  · subst h1; exact Or.inl wDF_fileOk
  · rcases List.mem_cons.mp h1 with h2 | h2
    · subst h2; exact Or.inr rfl
    · cases h2

/-- C3 counterexample: in a batch whose middle file has a non-numeric
price, the loop raises and returns an error, so the valid sibling files'
records are NOT produced — contrary to the claim that the failure does
not block the other files of the batch. -/
theorem claim_C3_counterexample :
    processFiles [("good.csv", wDF), ("bad.csv", badPriceDF), ("good2.csv", wDF)]
      = .error .valueError := by
  rfl

/-- C3 amended: a file with all required columns whose row fails coercion
(non-numeric price or quantity) makes `process_csv` raise a coercion
error (a `ValueError`, not a type error), and in the upload loop that
exception aborts the whole batch: `processFiles` returns an error and no
file's records are aggregated, so the failure does block the other
files. -/
theorem claim_C3_amended (bs : List (String × DataFrame)) (name : String)
    (df : DataFrame) (hmem : (name, df) ∈ bs)
    (hv : validate_csv df = true)
    (hbad : ∃ rec ∈ recordsOf df, ∃ e, normalizeRecord rec = .error e) :
    ∃ e', processFiles bs = .error e' := by
  obtain ⟨rec, hrec, e, he⟩ := hbad
  obtain ⟨e1, he1⟩ := mapExcept_error_of_mem normalizeRecord _ rec e hrec he
  have hdf : process_csv df = .error e1 := by simp [process_csv, hv, he1]
  exact processFiles_error_of_mem bs name df e1 hmem hdf

/-- Witness for the amended C3 at the concrete three-file batch. -/
theorem claim_C3_witness :
    ∃ e', processFiles
      [("good.csv", wDF), ("bad.csv", badPriceDF), ("good2.csv", wDF)] =
        .error e' :=
  claim_C3_amended _ "bad.csv" badPriceDF (by simp) rfl
    ⟨badPriceDF.columns.zip [.str "Gadget", .str "g", .str "abc", .int 2, .str "c"],
      by simp [recordsOf, badPriceDF], .valueError, by rfl⟩

/-! Lemmas about `insert_many` and `save_products` (claim C4). -/

theorem insert_many_all_valid (valid : Doc → Bool) (docs : List Doc) :
    ∀ coll, (∀ d ∈ docs, valid d = true) →
      insert_many valid coll docs = (coll ++ docs, .ok docs) := by
  induction docs with
  | nil => intro coll _; simp [insert_many]
  | cons d ds ih =>
      intro coll h
      have hd : valid d = true := h d (List.mem_cons_self d ds)
      have hds := ih (coll ++ [d]) (fun x hx => h x (List.mem_cons_of_mem d hx))
      simp [insert_many, hd, hds]

theorem insert_many_has_invalid (valid : Doc → Bool) (docs : List Doc) :
    ∀ coll, (∃ d ∈ docs, valid d = false) →
      insert_many valid coll docs =
        (coll ++ docs.takeWhile valid, .error .bulkWriteError) := by
  induction docs with
  | nil => intro coll h; simp at h
  | cons d ds ih =>
      intro coll h
      cases hd : valid d with
      | false => simp [insert_many, hd, List.takeWhile_cons, hd]
      | true =>
          have hds : ∃ x ∈ ds, valid x = false := by
            obtain ⟨x, hx, hxv⟩ := h
            rcases List.mem_cons.mp hx with h1 | h1
            · rw [h1, hd] at hxv; cases hxv
            · exact ⟨x, h1, hxv⟩
          have hih := ih (coll ++ [d]) hds
          simp [insert_many, hd, hih, List.takeWhile_cons]

/-- A product record violating the non-negative-price constraint. -/
def negPriceDoc : Doc :=
  [("product_name", .str "Bad"), ("description", .str "b"),
   ("price", .float (-1)), ("quantity", .int 1),
   ("categories", .list [.str "a"])]

/-- The Widget record as ingested (and as stored). -/
def wDoc : Doc :=
  [("product_name", .str "Widget"), ("description", .str "desc"),
   ("price", .float 10), ("quantity", .int 5),
   ("categories", .list [.str "a", .str "b"])]

/-- C4 counterexample: inserting the batch `[wDoc, negPriceDoc]` into an
empty collection fails with a surfaced error, but ONE record — not zero —
has been persisted: MongoDB's ordered `insert_many` halts at the first
invalid document without rolling back the earlier ones, so the batch is
not all-or-nothing. -/
theorem claim_C4_counterexample :
    productValid negPriceDoc = false ∧
    (save_products [] [wDoc, negPriceDoc]).2 = .error .bulkWriteError ∧
    (save_products [] [wDoc, negPriceDoc]).1 = [wDoc] ∧
    (save_products [] [wDoc, negPriceDoc]).1 ≠ [] := by
  refine ⟨by decide, rfl, rfl, by decide⟩

/-- C4 amended: when every record of the batch satisfies the product
schema, `save_products` appends all N records and returns N; when some
record violates it, the insert fails with a surfaced `BulkWriteError` and
exactly the records before the first violating one are persisted (zero
only when the first record is the violating one). -/
theorem claim_C4_amended (coll docs : List Doc) :
    ((∀ d ∈ docs, productValid d = true) →
      save_products coll docs = (coll ++ docs, .ok docs.length)) ∧
    ((∃ d ∈ docs, productValid d = false) →
      save_products coll docs =
        (coll ++ docs.takeWhile productValid, .error .bulkWriteError)) := by
  constructor
  · intro h
    simp [save_products, insert_many_all_valid productValid docs coll h]
  · intro h
    simp [save_products, insert_many_has_invalid productValid docs coll h]

/-- Witness for the amended C4: an all-valid batch of one record inserts
and returns 1; the `[wDoc, negPriceDoc]` batch persists exactly `[wDoc]`
and surfaces the error. -/
theorem claim_C4_witness :
    save_products [] [wDoc] = ([wDoc], .ok 1) ∧
    save_products [] [wDoc, negPriceDoc] = ([wDoc], .error .bulkWriteError) := by
  constructor
  · have h := (claim_C4_amended [] [wDoc]).1 (by
      intro d hd
      rcases List.mem_cons.mp hd with h1 | h1
      · subst h1; decide
      · cases h1)
    simpa using h
  · have h := (claim_C4_amended [] [wDoc, negPriceDoc]).2
      ⟨negPriceDoc, by simp, by decide⟩
    rw [h]
    rfl

/-! Lemmas about the search query (claims C5 and C6). -/

theorem regexCI_eq_true_iff (d : Doc) (k pat : String) :
    regexCI d k pat = true ↔ ∃ s, lookupF d k = some (.str s) ∧
      charsSub (s.data.map lowerChar) (pat.data.map lowerChar) = true := by
  cases h : lookupF d k with
  | none => simp [regexCI, h]
  | some w => cases w <;> simp [regexCI, h]

theorem fieldMatches_eq_true_iff (d : Doc) (k : String) (v : PyVal) :
    fieldMatches d k v = true ↔ ∃ w, lookupF d k = some w ∧
      (w = v ∨ ∃ xs, w = .list xs ∧ v ∈ xs) := by
  cases h : lookupF d k with
  | none => simp [fieldMatches, h]
  | some w =>
      cases w <;> simp [fieldMatches, h, List.elem_iff]

/-- C5: `search_products` returns exactly the stored records satisfying
the OR of a case-insensitive substring match of the term against
`product_name`, the same against `description`, or membership of the term
in the record's `category` field; `"wid"` matches the Widget record and an
unmatched term returns the empty list. -/
theorem claim_C5 :
    (∀ (coll : List Doc) (q : String) (d : Doc),
      d ∈ search_products coll q ↔ d ∈ coll ∧
        ((∃ s, lookupF d "product_name" = some (.str s) ∧
            charsSub (s.data.map lowerChar) (q.data.map lowerChar) = true) ∨
         (∃ s, lookupF d "description" = some (.str s) ∧
            charsSub (s.data.map lowerChar) (q.data.map lowerChar) = true) ∨
         (∃ w, lookupF d "category" = some w ∧
            (w = .str q ∨ ∃ xs, w = .list xs ∧ .str q ∈ xs)))) ∧
    search_products [wDoc] "wid" = [wDoc] ∧
    search_products [wDoc] "zzz" = [] := by
  refine ⟨?_, by decide, by decide⟩
  intro coll q d
  simp only [search_products, List.mem_filter, searchMatch, Bool.or_eq_true,
    regexCI_eq_true_iff, fieldMatches_eq_true_iff, or_assoc]

/-- C6: a record ingested from a frame without a literal `category` column
has no scalar `category` field, so the category condition of the search
query never matches it, whatever the query value: category search is
unreachable for ingested products. -/
theorem claim_C6 (df : DataFrame) (l : List Doc)
    (hcol : "category" ∉ df.columns)
    (h : process_csv df = .ok (some l)) :
    ∀ d ∈ l, lookupF d "category" = none ∧
      ∀ v : PyVal, fieldMatches d "category" v = false := by
  by_cases hv : validate_csv df = true
  · cases hm : mapExcept normalizeRecord (recordsOf df) with
    | error e => simp [process_csv, hv, hm] at h
    | ok l' =>
        have hll : l' = l := by simpa [process_csv, hv, hm] using h
        subst hll
        intro d hd
        obtain ⟨rec, hrec, hok⟩ := mapExcept_mem_ok _ _ _ hm d hd
        obtain ⟨r, _, hzip⟩ := by simpa [recordsOf] using hrec
        have hrecnone : lookupF rec "category" = none := by
          rw [← hzip]
          exact lookupF_zip_not_mem df.columns r "category" hcol
        have hnone : lookupF d "category" = none := by
          rw [normalizeRecord_lookup_other rec d "category" (by decide) (by decide)
            (by decide) hok]
          exact hrecnone
        exact ⟨hnone, fun v => by simp [fieldMatches, hnone]⟩
  · have : process_csv df = .ok none := by
      simp [process_csv, hv]
    rw [this] at h
    simp at h

/-- Witness for C6 at the ingested Widget record. -/
theorem claim_C6_witness :
    lookupF wDoc "category" = none ∧
    fieldMatches wDoc "category" (.str "a") = false :=
  ⟨(claim_C6 wDF [wDoc] (by decide) (by decide) wDoc (by simp)).1,
   (claim_C6 wDF [wDoc] (by decide) (by decide) wDoc (by simp)).2 (.str "a")⟩

/-! Lemmas about the category store (claims C7 and C9). -/

/-- The `name` values present in the categories collection. -/
def nameValsOf (cats : List Doc) : List PyVal :=
  cats.filterMap (fun d => lookupF d "name")

/-- Every stored category document has a string `name`, as the categories
validator guarantees for documents written through it. -/
def catsWF (cats : List Doc) : Prop :=
  ∀ d ∈ cats, ∃ s, lookupF d "name" = some (.str s)

/-- How many stored documents carry the given name. -/
def countName (cats : List Doc) (s : String) : ℕ :=
  (cats.filter (fun d => decide (lookupF d "name" = some (.str s)))).length

/-- A category record with the given name value exists. -/
def hasCategoryDoc (cats : List Doc) (v : PyVal) : Prop :=
  ∃ d ∈ cats, lookupF d "name" = some v

theorem hasCategoryDoc_iff_mem (cats : List Doc) (v : PyVal) :
    hasCategoryDoc cats v ↔ v ∈ nameValsOf cats := by
  simp [hasCategoryDoc, nameValsOf, List.mem_filterMap]

theorem countName_eq_count (cats : List Doc) (s : String) :
    countName cats s = (nameValsOf cats).count (.str s) := by
  induction cats with
  | nil => rfl
  | cons d rest ih =>
      cases hn : lookupF d "name" with
      | none =>
          simp [countName, nameValsOf, List.filter_cons, List.filterMap_cons,
            hn] at ih ⊢
          exact ih
      | some v =>
          by_cases hv : v = .str s
          · subst hv
            simp [countName, nameValsOf, List.filter_cons, List.filterMap_cons,
              hn, List.count_cons] at ih ⊢
            exact ih
          · have hv' : ¬(PyVal.str s = v) := fun hh => hv hh.symm
            simp [countName, nameValsOf, List.filter_cons, List.filterMap_cons,
              hn, List.count_cons, hv, hv'] at ih ⊢
            exact ih

theorem any_fieldMatches_name_iff (cats : List Doc) (s : String)
    (hwf : catsWF cats) :
    (cats.any (fun d => fieldMatches d "name" (.str s))) = true ↔
      hasCategoryDoc cats (.str s) := by
  rw [List.any_eq_true]
  constructor
  · rintro ⟨d, hd, hm⟩
    obtain ⟨t, ht⟩ := hwf d hd
    simp [fieldMatches, ht] at hm
    exact ⟨d, hd, by rw [ht, hm]⟩
  · rintro ⟨d, hd, hm⟩
    exact ⟨d, hd, by simp [fieldMatches, hm]⟩

/-- Full behaviour of `add_category` on a string name over a well-formed
store: it never errors, keeps the store well-formed, preserves every
present name, makes the given name present, and inserts exactly when the
name was absent. -/
theorem add_category_spec (cats : List Doc) (s : String) (hwf : catsWF cats) :
    (add_category cats (.str s)).2 = none ∧
    catsWF (add_category cats (.str s)).1 ∧
    (∀ v, hasCategoryDoc cats v → hasCategoryDoc (add_category cats (.str s)).1 v) ∧
    hasCategoryDoc (add_category cats (.str s)).1 (.str s) ∧
    (hasCategoryDoc cats (.str s) → (add_category cats (.str s)).1 = cats) ∧
    (¬hasCategoryDoc cats (.str s) →
      (add_category cats (.str s)).1 = cats ++ [[("name", .str s)]]) := by
  cases hany : cats.any (fun d => fieldMatches d "name" (.str s)) with
  | true =>
      have hex := (any_fieldMatches_name_iff cats s hwf).mp hany
      refine ⟨by simp [add_category, hany], ?_, ?_, ?_, ?_, ?_⟩
      · simpa [add_category, hany] using hwf
      · intro v hv; simpa [add_category, hany] using hv
      · simpa [add_category, hany] using hex
      · intro _; simp [add_category, hany]
      · intro hne; exact absurd hex hne
  | false =>
      have hnex : ¬hasCategoryDoc cats (.str s) := fun hex =>
        by rw [(any_fieldMatches_name_iff cats s hwf).mpr hex] at hany; cases hany
      have hval : categoryValid [("name", .str s)] = true := rfl
      have hstate : (add_category cats (.str s)).1 = cats ++ [[("name", .str s)]] := by
        simp [add_category, hany, hval]
      refine ⟨by simp [add_category, hany, hval], ?_, ?_, ?_, ?_, fun _ => hstate⟩
      · rw [hstate]
        intro d hd
        rcases List.mem_append.mp hd with h1 | h1
        · exact hwf d h1
        · rcases List.mem_singleton.mp h1 with rfl
          exact ⟨s, rfl⟩
      · intro v hv
        rw [hstate]
        obtain ⟨d, hd, hdv⟩ := hv
        exact ⟨d, List.mem_append_left _ hd, hdv⟩
      · rw [hstate]
        exact ⟨[("name", .str s)], List.mem_append_right _ (List.mem_singleton.mpr rfl), rfl⟩
      · intro hex; exact absurd hex hnex

/-- C7: under sequential execution `add_category` inserts `{name}` exactly
when no stored record has that exact name; adding the same name twice
leaves exactly one record with that name, and the no-duplicate-names
invariant of the category store is preserved. -/
theorem claim_C7 (cats : List Doc) (s : String)
    (hwf : catsWF cats) (hnd : (nameValsOf cats).Nodup) :
    (hasCategoryDoc cats (.str s) → add_category cats (.str s) = (cats, none)) ∧
    (¬hasCategoryDoc cats (.str s) →
      add_category cats (.str s) = (cats ++ [[("name", .str s)]], none)) ∧
    (nameValsOf (add_category cats (.str s)).1).Nodup ∧
    countName ((add_category (add_category cats (.str s)).1 (.str s)).1) s = 1 := by
  obtain ⟨hok, hwf1, _, hhas1, heq, hins⟩ := add_category_spec cats s hwf
  have hvals : nameValsOf (cats ++ [[("name", PyVal.str s)]]) =
      nameValsOf cats ++ [PyVal.str s] := by
    simp [nameValsOf, List.filterMap_append, List.filterMap_cons, lookupF]
  refine ⟨?_, ?_, ?_, ?_⟩
  · intro hex
    calc add_category cats (.str s)
        = ((add_category cats (.str s)).1, (add_category cats (.str s)).2) := rfl
      _ = (cats, none) := by rw [heq hex, hok]
  · intro hnex
    calc add_category cats (.str s)
        = ((add_category cats (.str s)).1, (add_category cats (.str s)).2) := rfl
      _ = (cats ++ [[("name", .str s)]], none) := by rw [hins hnex, hok]
  · by_cases hex : hasCategoryDoc cats (.str s)
    · rw [heq hex]; exact hnd
    · have hmem : PyVal.str s ∉ nameValsOf cats := fun hm =>
        hex ((hasCategoryDoc_iff_mem cats (.str s)).mpr hm)
      rw [hins hex, hvals]
      simp [List.nodup_append, hnd, hmem]
  · obtain ⟨_, _, _, _, heq1, _⟩ :=
      add_category_spec ((add_category cats (.str s)).1) s hwf1
    rw [heq1 hhas1, countName_eq_count]
    by_cases hex : hasCategoryDoc cats (.str s)
    · rw [heq hex]
      exact List.count_eq_one_of_mem hnd ((hasCategoryDoc_iff_mem _ _).mp hex)
    · rw [hins hex, hvals, List.count_append]
      have h0 : (nameValsOf cats).count (PyVal.str s) = 0 :=
        List.count_eq_zero.mpr (fun hm => hex ((hasCategoryDoc_iff_mem _ _).mpr hm))
      simp [h0]

/-- Witness for C7: adding "X" twice to the empty store leaves exactly one
record named "X". -/
theorem claim_C7_witness :
    add_category [] (.str "X") = ([[("name", .str "X")]], none) ∧
    countName ((add_category (add_category [] (.str "X")).1 (.str "X")).1) "X" = 1 :=
  ⟨(claim_C7 [] "X" (fun d hd => absurd hd (List.not_mem_nil d))
      (List.nodup_nil)).2.1 (fun hex => by
        obtain ⟨d, hd, _⟩ := hex
        exact absurd hd (List.not_mem_nil d)),
   (claim_C7 [] "X" (fun d hd => absurd hd (List.not_mem_nil d))
      (List.nodup_nil)).2.2.2⟩

/-- The category labels a product record carries in its `categories`
array. -/
def catLabels (p : Doc) : List PyVal :=
  match lookupF p "categories" with
  | some (.list xs) => xs
  | _ => []

theorem addAllCats_spec (vs : List PyVal) (cats : List Doc)
    (hvs : ∀ v ∈ vs, ∃ s, v = .str s) (hwf : catsWF cats) :
    ∃ cats2, addAllCats cats vs = (cats2, none) ∧ catsWF cats2 ∧
      (∀ w, hasCategoryDoc cats w → hasCategoryDoc cats2 w) ∧
      ∀ v ∈ vs, hasCategoryDoc cats2 v := by
  induction vs generalizing cats with
  | nil => exact ⟨cats, rfl, hwf, fun w hw => hw, by simp⟩
  | cons v vs ih =>
      obtain ⟨s, rfl⟩ := hvs v (List.mem_cons_self v vs)
      obtain ⟨hok, hwf1, hmono1, hhas1, _, _⟩ := add_category_spec cats s hwf
      cases hac : add_category cats (.str s) with
      | mk c1 e1 =>
          simp only [hac] at hok hwf1 hmono1 hhas1
          subst hok
          obtain ⟨cats2, h2, hwf2, hmono2, hall2⟩ :=
            ih c1 (fun w hw => hvs w (List.mem_cons_of_mem _ hw)) hwf1
          have hstep : addAllCats cats (.str s :: vs) = (cats2, none) := by
            simp [addAllCats, hac, h2]
          refine ⟨cats2, hstep, hwf2, fun w hw => hmono2 w (hmono1 w hw), ?_⟩
          intro v hv
          rcases List.mem_cons.mp hv with h1 | h1
          · subst h1; exact hmono2 _ hhas1
          · exact hall2 v h1

theorem registerCats_spec (aps : List Doc) (cats : List Doc)
    (haps : ∀ p ∈ aps, ∃ xs, lookupF p "categories" = some (.list xs) ∧
      ∀ v ∈ xs, ∃ s, v = .str s)
    (hwf : catsWF cats) :
    ∃ cats2, registerCats cats aps = (cats2, none) ∧ catsWF cats2 ∧
      (∀ w, hasCategoryDoc cats w → hasCategoryDoc cats2 w) ∧
      ∀ p ∈ aps, ∀ v ∈ catLabels p, hasCategoryDoc cats2 v := by
  induction aps generalizing cats with
  | nil => exact ⟨cats, rfl, hwf, fun w hw => hw, by simp⟩
  | cons p ps ih =>
      obtain ⟨xs, hxs, hstrs⟩ := haps p (List.mem_cons_self p ps)
      have hiter : iterCategories p = .ok xs := by simp [iterCategories, hxs]
      obtain ⟨cats1, h1, hwf1, hmono1, hall1⟩ := addAllCats_spec xs cats hstrs hwf
      obtain ⟨cats2, h2, hwf2, hmono2, hall2⟩ :=
        ih cats1 (fun q hq => haps q (List.mem_cons_of_mem _ hq)) hwf1
      have hstep : registerCats cats (p :: ps) = (cats2, none) := by
        simp [registerCats, hiter, h1, h2]
      refine ⟨cats2, hstep, hwf2, fun w hw => hmono2 w (hmono1 w hw), ?_⟩
      intro q hq v hv
      rcases List.mem_cons.mp hq with hq1 | hq1
      · subst hq1
        have hlab : catLabels q = xs := by simp [catLabels, hxs]
        rw [hlab] at hv
        exact hmono2 v (hall1 v hv)
      · exact hall2 q hq1 v hv

/-- C9: in the upload flow every category label of every normalized
product is registered through `add_category` before the batch reaches
`save_products`; in particular after the upload every category referenced
by a product of the batch exists as a record of the final category
store. -/
theorem claim_C9 (cats prods aps : List Doc)
    (haps : ∀ p ∈ aps, ∃ xs, lookupF p "categories" = some (.list xs) ∧
      ∀ v ∈ xs, ∃ s, v = .str s)
    (hwf : catsWF cats)
    (cats' prods' : List Doc) (r : Except PyErr ℕ)
    (h : upload_all cats prods aps = (cats', prods', r)) :
    ∀ p ∈ aps, ∀ v ∈ catLabels p, hasCategoryDoc cats' v := by
  obtain ⟨cats2, hreg, _, _, hall⟩ := registerCats_spec aps cats haps hwf
  have h2 : upload_all cats prods aps =
      (cats2, (save_products prods aps).1, (save_products prods aps).2) := by
    simp [upload_all, hreg]
  rw [h2] at h
  obtain ⟨hc, -, -⟩ := Prod.mk.injEq .. ▸ h
  rw [← hc]
  exact hall

/-- Witness for C9: uploading the Widget record from empty stores
registers both of its category labels before the save. -/
theorem claim_C9_witness :
    upload_all [] [] [wDoc] =
      ([[("name", .str "a")], [("name", .str "b")]], [wDoc], .ok 1) ∧
    hasCategoryDoc [[("name", .str "a")], [("name", .str "b")]] (.str "a") ∧
    hasCategoryDoc [[("name", .str "a")], [("name", .str "b")]] (.str "b") := by
  have hup : upload_all [] [] [wDoc] =
      ([[("name", .str "a")], [("name", .str "b")]], [wDoc], .ok 1) := by rfl
  have haps : ∀ p ∈ [wDoc], ∃ xs, lookupF p "categories" = some (.list xs) ∧
      ∀ v ∈ xs, ∃ s, v = .str s := by
    intro p hp
    rcases List.mem_singleton.mp hp with rfl
    refine ⟨[.str "a", .str "b"], rfl, ?_⟩
    intro v hv
    rcases List.mem_cons.mp hv with h1 | h1
    · exact ⟨"a", h1⟩
    · rcases List.mem_singleton.mp h1 with rfl
      exact ⟨"b", rfl⟩
  have hwf : catsWF [] := fun d hd => absurd hd (List.not_mem_nil d)
  refine ⟨hup, ?_, ?_⟩
  · exact claim_C9 [] [] [wDoc] haps hwf _ _ _ hup wDoc (List.mem_singleton.mpr rfl)
      (.str "a") (by decide)
  · exact claim_C9 [] [] [wDoc] haps hwf _ _ _ hup wDoc (List.mem_singleton.mpr rfl)
      (.str "b") (by decide)

end BulkUpload

namespace Categorize

/-! Lemmas for `update_product_category` (claim C8) and
`add_new_category` (claim C10). -/

theorem update_one_set_not_found (coll : List Doc) (pid : PyVal) (k : String)
    (v : PyVal)
    (h : coll.find? (fun d => fieldMatches d "_id" pid) = none) :
    update_one_set coll pid k v = (coll, false) := by
  induction coll with
  | nil => rfl
  | cons d ds ih =>
      cases hm : fieldMatches d "_id" pid with
      | true =>
          have hh : List.find? (fun x => fieldMatches x "_id" pid) (d :: ds) =
              some d := List.find?_cons_of_pos ds hm
          rw [hh] at h
          cases h
      | false =>
          have hh : List.find? (fun x => fieldMatches x "_id" pid) (d :: ds) =
              List.find? (fun x => fieldMatches x "_id" pid) ds :=
            List.find?_cons_of_neg ds (by simp [hm])
          rw [hh] at h
          simp [update_one_set, hm, ih h]

theorem update_one_set_found (coll : List Doc) (pid : PyVal) (k : String)
    (v : PyVal) (d : Doc)
    (h : coll.find? (fun x => fieldMatches x "_id" pid) = some d) :
    ∃ pre post, coll = pre ++ d :: post ∧
      (∀ x ∈ pre, fieldMatches x "_id" pid = false) ∧
      update_one_set coll pid k v =
        (pre ++ setField d k v :: post, decide (setField d k v ≠ d)) := by
  induction coll with
  | nil => simp at h
  | cons a as ih =>
      cases hm : fieldMatches a "_id" pid with
      | true =>
          have hh : List.find? (fun x => fieldMatches x "_id" pid) (a :: as) =
              some a := List.find?_cons_of_pos as hm
          rw [hh] at h
          have had : a = d := by injection h
          subst had
          refine ⟨[], as, rfl, by simp, ?_⟩
          simp [update_one_set, hm]
      | false =>
          have hh : List.find? (fun x => fieldMatches x "_id" pid) (a :: as) =
              List.find? (fun x => fieldMatches x "_id" pid) as :=
            List.find?_cons_of_neg as (by simp [hm])
          rw [hh] at h
          obtain ⟨pre, post, hco, hpre, hup⟩ := ih h
          refine ⟨a :: pre, post, by rw [List.cons_append, hco], ?_, ?_⟩
          · intro x hx
            rcases List.mem_cons.mp hx with h1 | h1
            · rw [h1]; exact hm
            · exact hpre x h1
          · simp [update_one_set, hm, hup]

theorem find?_after_false_lead (p : Doc → Bool) (pre : List Doc) (x : Doc)
    (post : List Doc) (hpre : ∀ y ∈ pre, p y = false) (hx : p x = true) :
    (pre ++ x :: post).find? p = some x := by
  induction pre with
  | nil => simp [List.find?_cons_of_pos _ hx]
  | cons a as ih =>
      have ha : p a = false := hpre a (List.mem_cons_self a as)
      rw [List.cons_append, List.find?_cons_of_neg _ (by simp [ha])]
      exact ih (fun y hy => hpre y (List.mem_cons_of_mem a hy))

/-- C8: `update_product_category` returns false without changing the
store when no record has the id or when the stored category already
equals the new value, and returns true exactly when a record changed, in
which case fetching that id afterwards shows the new category value. -/
theorem claim_C8 (coll : List Doc) (pid nc : PyVal) :
    (coll.find? (fun d => fieldMatches d "_id" pid) = none →
      update_product_category coll pid nc = (coll, false)) ∧
    (∀ d, coll.find? (fun d => fieldMatches d "_id" pid) = some d →
      lookupF d "category" = some nc →
      update_product_category coll pid nc = (coll, false)) ∧
    (∀ d, coll.find? (fun d => fieldMatches d "_id" pid) = some d →
      lookupF d "category" ≠ some nc →
      (update_product_category coll pid nc).2 = true ∧
      ((update_product_category coll pid nc).1).find?
        (fun d => fieldMatches d "_id" pid) = some (setField d "category" nc) ∧
      lookupF (setField d "category" nc) "category" = some nc) := by
  refine ⟨?_, ?_, ?_⟩
  · intro h
    exact update_one_set_not_found coll pid "category" nc h
  · intro d hfind hcat
    obtain ⟨pre, post, hco, hpre, hup⟩ :=
      update_one_set_found coll pid "category" nc d hfind
    have hself : setField d "category" nc = d :=
      (setField_eq_self_iff d "category" nc).mpr hcat
    calc update_product_category coll pid nc
        = update_one_set coll pid "category" nc := rfl
      _ = (pre ++ setField d "category" nc :: post,
            decide (setField d "category" nc ≠ d)) := hup
      _ = (coll, false) := by rw [hself, ← hco]; simp
  · intro d hfind hcat
    obtain ⟨pre, post, hco, hpre, hup⟩ :=
      update_one_set_found coll pid "category" nc d hfind
    have hne : setField d "category" nc ≠ d := fun hh =>
      hcat ((setField_eq_self_iff d "category" nc).mp hh)
    have hmain : update_product_category coll pid nc =
        (pre ++ setField d "category" nc :: post,
          decide (setField d "category" nc ≠ d)) := hup
    have hidp : fieldMatches (setField d "category" nc) "_id" pid =
        fieldMatches d "_id" pid := by
      simp [fieldMatches, lookupF_setField_other d "category" "_id" nc (by decide)]
    have hdp : fieldMatches d "_id" pid = true := by
      simpa using List.find?_some hfind
    refine ⟨by rw [hmain]; simp [hne], ?_, lookupF_setField_same d "category" nc⟩
    rw [hmain]
    exact find?_after_false_lead _ pre _ post hpre (by rw [hidp]; exact hdp)

/-- A stored product document as the categorization module sees it. -/
def pDoc1 : Doc :=
  [("_id", .int 1), ("product_name", .str "W"), ("category", .str "Old")]

/-- Witness for C8: a non-existent id returns false and leaves the store
unchanged; updating the stored product to "NewCat" returns true and a
subsequent fetch of that id shows the new category. -/
theorem claim_C8_witness :
    update_product_category [pDoc1] (.int 2) (.str "NewCat") = ([pDoc1], false) ∧
    (update_product_category [pDoc1] (.int 1) (.str "NewCat")).2 = true ∧
    ((update_product_category [pDoc1] (.int 1) (.str "NewCat")).1).find?
      (fun d => fieldMatches d "_id" (.int 1)) =
        some (setField pDoc1 "category" (.str "NewCat")) ∧
    lookupF (setField pDoc1 "category" (.str "NewCat")) "category" =
      some (.str "NewCat") := by
  have h3 := (claim_C8 [pDoc1] (.int 1) (.str "NewCat")).2.2 pDoc1 rfl (by decide)
  exact ⟨(claim_C8 [pDoc1] (.int 2) (.str "NewCat")).1 rfl, h3.1, h3.2.1, h3.2.2⟩

/-- C10: `add_new_category` writes nothing at all — both collections come
back unchanged — and merely reports whether the name is absent from the
distinct values of the products' `category` field. -/
theorem claim_C10 (prods cats : List Doc) (nc : String) :
    (add_new_category prods cats nc).1 = prods ∧
    (add_new_category prods cats nc).2.1 = cats ∧
    ((add_new_category prods cats nc).2.2 = true ↔
      PyVal.str nc ∉ distinctField prods "category") := by
  refine ⟨rfl, rfl, ?_⟩
  have hmem : PyVal.str nc ∈ get_all_categories prods ↔
      PyVal.str nc ∈ distinctField prods "category" :=
    (List.perm_insertionSort _ _).mem_iff
  simp [add_new_category]
  exact not_congr hmem

end Categorize

end ONDC
